import Mathlib

/-!
Verification of the CQRS + Event Sourcing URL-shortener service
(`src/main.rs`) against its natural-language specification.

The Rust service state (`UrlShortenerService`) holds two hash maps:
an event log `events : HashMap<String, Vec<Event>>` and a projection
`stats : HashMap<String, Stats>`.  We embed both maps as total functions
from keys to `List Event` / `Option Stats`, with the empty map sending
every key to `[]` / `none` (matching `HashMap::get` returning the default
for absent keys, as `iter_by_slug` does explicitly).

Machine integers: `Stats.redirects` is a Rust `u64` that is only ever
incremented by 1 per successful redirect; we model it as `Nat`.

The random slug generator (`generate_random_slug`, built on `SystemTime`)
is an external collaborator; its output is passed to
`handle_create_short_link` as an explicit oracle argument `gen`, which is
read exactly when the caller supplies no slug — mirroring the Rust code,
where `create_random_slug` fills in the generated slug (and, unlike the
caller-supplied branch, performs no rehydration).
-/

instance {ε α : Type} [DecidableEq ε] [DecidableEq α] : DecidableEq (Except ε α) := fun x y =>
  match x, y with
  | Except.ok a, Except.ok b =>
      if h : a = b then isTrue (by rw [h]) else isFalse (by simp [h])
  | Except.error a, Except.error b =>
      if h : a = b then isTrue (by rw [h]) else isFalse (by simp [h])
  | Except.ok _, Except.error _ => isFalse (by simp)
  | Except.error _, Except.ok _ => isFalse (by simp)

/-- Errors of the service (`ShortenerError` in the source). -/
inductive ShortenerError where
  | InvalidUrl
  | SlugAlreadyInUse
  | SlugNotFound
deriving DecidableEq

/-- Slug newtype: a unique string alias for a short link. -/
structure Slug where
  val : String
deriving DecidableEq

/-- Url newtype: the original URL a short link points to. -/
structure Url where
  val : String
deriving DecidableEq

/-- Shortened URL representation (`ShortLink` in the source). -/
structure ShortLink where
  slug : Slug
  url : Url
deriving DecidableEq

/-- Statistics of a short link; `redirects` is a `u64` in the source. -/
structure Stats where
  link : ShortLink
  redirects : Nat
deriving DecidableEq

/-- Event payload kinds (`events::EventType` in the source). -/
inductive EventType where
  | ShortLinkCreated (url : Url)
  | ShortLinkRedirected
deriving DecidableEq

/-- Domain event (`events::Event` in the source). -/
structure Event where
  slug : Slug
  event_type : EventType
deriving DecidableEq

/-- Service state: the event store and the query model
(`UrlShortenerService { events, stats }` in the source).  Hash maps are
embedded as total functions; absent keys read as `[]` / `none`. -/
structure UrlShortenerService where
  events : String → List Event
  stats : String → Option Stats

/-- Fresh service (`UrlShortenerService::new`): both maps empty. -/
def UrlShortenerService.new : UrlShortenerService :=
  { events := fun _ => [], stats := fun _ => none }

/-- URL validity predicate (`domain::is_valid_url`): nonempty, contains a
dot, and starts with `http://` or `https://`.  Rust's `String::contains`
with a `char` pattern and `str::starts_with` are modeled at the
character-list level. -/
def is_valid_url (url : Url) : Bool :=
  !url.val.data.isEmpty && url.val.data.contains '.' &&
    (("http://".data.isPrefixOf url.val.data) ||
      ("https://".data.isPrefixOf url.val.data))

/-- Projection update performed by `publish_event` for the key
`event.slug.0`: a `ShortLinkCreated` inserts a fresh `Stats` with zero
redirects (overwriting any prior entry); a `ShortLinkRedirected`
increments the existing entry if present and is a no-op otherwise
(`if let Some(stats) = self.stats.get_mut(..)`). -/
def applyToStats (acc : Option Stats) (e : Event) : Option Stats :=
  match e.event_type with
  | EventType.ShortLinkCreated url =>
      some { link := { slug := e.slug, url := url }, redirects := 0 }
  | EventType.ShortLinkRedirected =>
      match acc with
      | some st => some { st with redirects := st.redirects + 1 }
      | none => none

/-- Event broker mutation (`publish_event`): append the event to the log
under its slug's key, then fold it into the query model. -/
def publish_event (s : UrlShortenerService) (e : Event) : UrlShortenerService :=
  { events := fun k => if k = e.slug.val then s.events k ++ [e] else s.events k,
    stats := fun k => if k = e.slug.val then applyToStats (s.stats k) e else s.stats k }

/-- Event broker read (`iter_by_slug`): the full stored event sequence for
a slug; empty for unknown slugs. -/
def iter_by_slug (s : UrlShortenerService) (slug : Slug) : List Event :=
  s.events slug.val

/-- Local-state part of `ShortLinkAggregate::apply_event`: a creation
event sets both slug and url of the aggregate state; a redirect event
leaves the local state unchanged. -/
def applyLocal (st : ShortLink) (e : Event) : ShortLink :=
  match e.event_type with
  | EventType.ShortLinkCreated url => { slug := e.slug, url := url }
  | EventType.ShortLinkRedirected => st

/-- Aggregate `apply_event`: publishes the event through the broker, then
updates local state.  The pair carries (broker state, aggregate state). -/
def apply_event (st : UrlShortenerService × ShortLink) (e : Event) :
    UrlShortenerService × ShortLink :=
  (publish_event st.1 e, applyLocal st.2 e)

/-- Initial aggregate state built by `ShortLinkAggregate::new`: empty slug
and url. -/
def emptyShortLink : ShortLink := { slug := { val := "" }, url := { val := "" } }

/-- Aggregate `rehydrate_by_slug`: set the state slug, then apply every
event currently stored for that slug — which, through `apply_event`,
also re-publishes each of them. -/
def rehydrate_by_slug (st : UrlShortenerService × ShortLink) (slug : Slug) :
    UrlShortenerService × ShortLink :=
  (iter_by_slug st.1 slug).foldl apply_event (st.1, { st.2 with slug := slug })

/-- Aggregate `create_short_link`: fail with `SlugAlreadyInUse` if the
rehydrated url is nonempty, with `InvalidUrl` if the url fails validation;
otherwise emit and apply a `ShortLinkCreated` event and return the state
snapshot. -/
def create_short_link (st : UrlShortenerService × ShortLink) (url : Url) :
    Except ShortenerError ShortLink × UrlShortenerService :=
  if st.2.url.val ≠ "" then
    (Except.error ShortenerError.SlugAlreadyInUse, st.1)
  else if !is_valid_url url then
    (Except.error ShortenerError.InvalidUrl, st.1)
  else
    let st' := apply_event st { slug := st.2.slug, event_type := EventType.ShortLinkCreated url }
    (Except.ok st'.2, st'.1)

/-- Aggregate `redirect`: fail with `SlugNotFound` if the rehydrated url
is empty; otherwise emit and apply a `ShortLinkRedirected` event and
return the state snapshot. -/
def redirect (st : UrlShortenerService × ShortLink) :
    Except ShortenerError ShortLink × UrlShortenerService :=
  if st.2.url.val = "" then
    (Except.error ShortenerError.SlugNotFound, st.1)
  else
    let st' := apply_event st { slug := st.2.slug, event_type := EventType.ShortLinkRedirected }
    (Except.ok st'.2, st'.1)

/-- Command handler `handle_create_short_link`.  With a caller-supplied
slug the aggregate rehydrates by it; with `none` the aggregate only
installs the generated slug `gen` (`create_random_slug`) and does not
rehydrate.  Then `create_short_link` runs. -/
def handle_create_short_link (s : UrlShortenerService) (url : Url)
    (slug : Option Slug) (gen : Slug) :
    Except ShortenerError ShortLink × UrlShortenerService :=
  match slug with
  | some sl => create_short_link (rehydrate_by_slug (s, emptyShortLink) sl) url
  | none => create_short_link (s, { emptyShortLink with slug := gen }) url

/-- Command handler `handle_redirect`: rehydrate by the slug, then run the
redirect transition. -/
def handle_redirect (s : UrlShortenerService) (slug : Slug) :
    Except ShortenerError ShortLink × UrlShortenerService :=
  redirect (rehydrate_by_slug (s, emptyShortLink) slug)

/-- Query handler `get_stats`: direct projection lookup, cloning the
stored value on a hit. -/
def get_stats (s : UrlShortenerService) (slug : Slug) : Except ShortenerError Stats :=
  match s.stats slug.val with
  | some stats => Except.ok stats
  | none => Except.error ShortenerError.SlugNotFound

/-- Call-level view of `get_stats`.  The Rust method takes `&self` and the
service has no interior mutability, so a call returns the receiver
unchanged alongside the result. -/
def get_stats_call (s : UrlShortenerService) (slug : Slug) :
    Except ShortenerError Stats × UrlShortenerService :=
  (get_stats s slug, s)

/-- One service call, as a relation between pre- and post-state.  The
`create` constructor covers both the caller-supplied-slug path and the
generated-slug path (the oracle argument `gen` ranges over all strings
the external generator could return).  `query` records that `get_stats`
takes `&self` and leaves the state unchanged. -/
inductive Step : UrlShortenerService → UrlShortenerService → Prop where
  | create (s : UrlShortenerService) (url : Url) (slug : Option Slug) (gen : Slug) :
      Step s (handle_create_short_link s url slug gen).2
  | redirectCall (s : UrlShortenerService) (slug : Slug) :
      Step s (handle_redirect s slug).2
  | query (s : UrlShortenerService) (slug : Slug) :
      Step s (get_stats_call s slug).2

/-- States reachable from a fresh service by any sequence of calls. -/
inductive Reachable : UrlShortenerService → Prop where
  | init : Reachable UrlShortenerService.new
  | step {s s' : UrlShortenerService} : Reachable s → Step s s' → Reachable s'

/-- One service call under the freshness expectation of spec section 4.3:
whenever a slug is generated (no caller-supplied slug), the generated
value has no events in the log yet. -/
inductive StepF : UrlShortenerService → UrlShortenerService → Prop where
  | createSome (s : UrlShortenerService) (url : Url) (slug : Slug) (gen : Slug) :
      StepF s (handle_create_short_link s url (some slug) gen).2
  | createNone (s : UrlShortenerService) (url : Url) (gen : Slug)
      (fresh : s.events gen.val = []) :
      StepF s (handle_create_short_link s url none gen).2
  | redirectCall (s : UrlShortenerService) (slug : Slug) :
      StepF s (handle_redirect s slug).2
  | query (s : UrlShortenerService) (slug : Slug) :
      StepF s (get_stats_call s slug).2

/-- States reachable from a fresh service when every generated slug is
fresh at generation time. -/
inductive ReachableF : UrlShortenerService → Prop where
  | init : ReachableF UrlShortenerService.new
  | step {s s' : UrlShortenerService} : ReachableF s → StepF s s' → ReachableF s'

/-- Boolean test for a creation event. -/
def isCreatedB (e : Event) : Bool :=
  match e.event_type with
  | EventType.ShortLinkCreated _ => true
  | EventType.ShortLinkRedirected => false

/-- Boolean test for a redirect event. -/
def isRedirectedB (e : Event) : Bool :=
  match e.event_type with
  | EventType.ShortLinkCreated _ => false
  | EventType.ShortLinkRedirected => true

/-- Boolean test for the presence of a creation event in a log. -/
def hasCreatedB (es : List Event) : Bool := es.any isCreatedB

/-- Accumulator step selecting the last creation event's slug and url. -/
def lastCreatedStep (acc : Option (Slug × Url)) (e : Event) : Option (Slug × Url) :=
  match e.event_type with
  | EventType.ShortLinkCreated u => some (e.slug, u)
  | EventType.ShortLinkRedirected => acc

/-- Slug and url of the last creation event of a log, if any. -/
def lastCreatedPair (es : List Event) : Option (Slug × Url) :=
  es.foldl lastCreatedStep none

/-- Accumulator step counting redirect events since the last creation
event. -/
def countStep (n : Nat) (e : Event) : Nat :=
  match e.event_type with
  | EventType.ShortLinkCreated _ => 0
  | EventType.ShortLinkRedirected => n + 1

/-- Number of redirect events after the last creation event of a log
(total redirect count when no creation event occurs after them). -/
def countRedirectsAfterLastCreate (es : List Event) : Nat :=
  es.foldl countStep 0

/-- Projection value determined by a single alias's full log: the fold of
the broker's per-event projection update from an absent entry. -/
def statsOf (es : List Event) : Option Stats := es.foldl applyToStats none

/-- Current redirect count an external observer reads for a key
(0 when the projection has no entry). -/
def redirectsAt (s : UrlShortenerService) (k : String) : Nat :=
  match s.stats k with
  | some st => st.redirects
  | none => 0

def urlGoogle : Url := { val := "https://google.com" }

def slugGoog : Slug := { val := "goog" }

/-- Dummy generator output for calls that supply a slug (the oracle
argument is unread on that path). -/
def slugDummy : Slug := { val := "x" }

/-- Service state after the successful creation of `goog`. -/
def st1 : UrlShortenerService :=
  (handle_create_short_link UrlShortenerService.new urlGoogle (some slugGoog) slugDummy).2

/-- Service state after one successful redirect of `goog`. -/
def st2 : UrlShortenerService := (handle_redirect st1 slugGoog).2

/-- Service state after a second successful redirect of `goog`. -/
def st3 : UrlShortenerService := (handle_redirect st2 slugGoog).2

/-! ### Fold lemmas and log characterisations -/

lemma statsOf_append (es : List Event) (e : Event) :
    statsOf (es ++ [e]) = applyToStats (statsOf es) e := by
  simp [statsOf, List.foldl_append]

lemma lastCreatedPair_append (es : List Event) (e : Event) :
    lastCreatedPair (es ++ [e]) = lastCreatedStep (lastCreatedPair es) e := by
  simp [lastCreatedPair, List.foldl_append]

lemma countRedirects_append (es : List Event) (e : Event) :
    countRedirectsAfterLastCreate (es ++ [e]) =
      countStep (countRedirectsAfterLastCreate es) e := by
  simp [countRedirectsAfterLastCreate, List.foldl_append]

lemma foldl_lastCreatedStep_general (es : List Event) :
    ∀ a : Option (Slug × Url),
      es.foldl lastCreatedStep a =
        match es.foldl lastCreatedStep none with
        | some p => some p
        | none => a := by
  induction es with
  | nil => intro a; rfl
  | cons e t ih =>
      intro a
      cases he : e.event_type with
      | ShortLinkCreated u =>
          simp only [List.foldl_cons, lastCreatedStep, he]
          rw [ih (some (e.slug, u))]
          cases t.foldl lastCreatedStep none <;> simp
      | ShortLinkRedirected =>
          simp only [List.foldl_cons, lastCreatedStep, he]
          exact ih a

lemma foldl_applyLocal_char (es : List Event) :
    ∀ l : ShortLink,
      es.foldl applyLocal l =
        match lastCreatedPair es with
        | some p => { slug := p.1, url := p.2 }
        | none => l := by
  induction es with
  | nil => intro l; rfl
  | cons e t ih =>
      intro l
      cases he : e.event_type with
      | ShortLinkCreated u =>
          simp only [List.foldl_cons, applyLocal, lastCreatedPair, lastCreatedStep, he]
          rw [ih { slug := e.slug, url := u }]
          rw [foldl_lastCreatedStep_general t (some (e.slug, u))]
          cases hq : t.foldl lastCreatedStep none <;> simp [lastCreatedPair, hq]
      | ShortLinkRedirected =>
          simp only [List.foldl_cons, applyLocal, lastCreatedPair, lastCreatedStep, he]
          exact ih l

lemma statsOf_char (es : List Event) :
    statsOf es =
      (lastCreatedPair es).map
        (fun p =>
          { link := { slug := p.1, url := p.2 },
            redirects := countRedirectsAfterLastCreate es }) := by
  induction es using List.reverseRecOn with
  | nil => rfl
  | append_singleton es e ih =>
      rw [statsOf_append, lastCreatedPair_append, countRedirects_append]
      cases he : e.event_type with
      | ShortLinkCreated u =>
          simp [applyToStats, lastCreatedStep, countStep, he]
      | ShortLinkRedirected =>
          rw [ih]
          cases hp : lastCreatedPair es <;>
            simp [applyToStats, lastCreatedStep, countStep, he]

lemma lastCreatedPair_mem (es : List Event) :
    ∀ p : Slug × Url, lastCreatedPair es = some p →
      ∃ e ∈ es, e.slug = p.1 ∧ e.event_type = EventType.ShortLinkCreated p.2 := by
  induction es with
  | nil => intro p h; simp [lastCreatedPair] at h
  | cons e t ih =>
      intro p h
      cases he : e.event_type with
      | ShortLinkCreated u =>
          rw [lastCreatedPair] at h
          rw [List.foldl_cons] at h
          simp only [lastCreatedStep, he] at h
          rw [foldl_lastCreatedStep_general t (some (e.slug, u))] at h
          rcases hq : t.foldl lastCreatedStep none with _ | q
          · rw [hq] at h
            simp at h
            exact ⟨e, List.mem_cons_self e t, by simp [← h, he]⟩
          · rw [hq] at h
            simp at h
            obtain ⟨e', he', h1, h2⟩ := ih p (by rw [lastCreatedPair, hq, h])
            exact ⟨e', List.mem_cons_of_mem e he', h1, h2⟩
      | ShortLinkRedirected =>
          rw [lastCreatedPair, List.foldl_cons] at h
          simp only [lastCreatedStep, he] at h
          obtain ⟨e', he', h1, h2⟩ := ih p h
          exact ⟨e', List.mem_cons_of_mem e he', h1, h2⟩

lemma hasCreatedB_false_iff (es : List Event) :
    hasCreatedB es = false ↔ lastCreatedPair es = none := by
  induction es with
  | nil => simp [hasCreatedB, lastCreatedPair]
  | cons e t ih =>
      cases he : e.event_type with
      | ShortLinkCreated u =>
          constructor
          · intro h
            exfalso
            simp [hasCreatedB, isCreatedB, he] at h
          · intro h
            exfalso
            rw [lastCreatedPair, List.foldl_cons] at h
            simp only [lastCreatedStep, he] at h
            rw [foldl_lastCreatedStep_general t (some (e.slug, u))] at h
            rcases hq : t.foldl lastCreatedStep none with _ | q <;> rw [hq] at h <;> simp at h
      | ShortLinkRedirected =>
          constructor
          · intro h
            rw [lastCreatedPair, List.foldl_cons]
            simp only [lastCreatedStep, he]
            rw [← lastCreatedPair, ← ih]
            simp [hasCreatedB, isCreatedB, he] at h ⊢
            exact h
          · intro h
            rw [lastCreatedPair, List.foldl_cons] at h
            simp only [lastCreatedStep, he] at h
            rw [← lastCreatedPair, ← ih] at h
            simp only [hasCreatedB] at h ⊢
            simp only [List.any_cons, isCreatedB, he, Bool.false_or]
            exact h

lemma foldl_applyToStats_headC (e : Event) (t : List Event) (u : Url)
    (he : e.event_type = EventType.ShortLinkCreated u) (acc : Option Stats) :
    (e :: t).foldl applyToStats acc = statsOf (e :: t) := by
  simp [statsOf, List.foldl_cons, applyToStats, he]

lemma foldl_applyToStats_irrel (es : List Event) (acc : Option Stats)
    (hhead : ∀ e, es.head? = some e → ∃ u, e.event_type = EventType.ShortLinkCreated u)
    (hnil : es = [] → acc = none) :
    es.foldl applyToStats acc = statsOf es := by
  cases es with
  | nil => simp [statsOf, hnil rfl]
  | cons e t =>
      obtain ⟨u, hu⟩ := hhead e rfl
      exact foldl_applyToStats_headC e t u hu acc

lemma statsOf_doubling (es : List Event)
    (hhead : ∀ e, es.head? = some e → ∃ u, e.event_type = EventType.ShortLinkCreated u) :
    statsOf (es ++ es) = statsOf es := by
  cases es with
  | nil => rfl
  | cons e t =>
      obtain ⟨u, hu⟩ := hhead e rfl
      rw [statsOf, List.foldl_append, ← statsOf]
      exact foldl_applyToStats_headC e t u hu _

/-! ### Effect of replaying an event list through the aggregate -/

lemma foldl_apply_event_events_same (L : List Event) :
    ∀ (st : UrlShortenerService × ShortLink) (c : String), (∀ e ∈ L, e.slug.val = c) →
      (L.foldl apply_event st).1.events c = st.1.events c ++ L := by
  induction L with
  | nil => intro st c _; simp
  | cons e t ih =>
      intro st c h
      have he : e.slug.val = c := h e (List.mem_cons_self e t)
      have ht : ∀ x ∈ t, x.slug.val = c := fun x hx => h x (List.mem_cons_of_mem e hx)
      rw [List.foldl_cons, ih _ c ht]
      simp [apply_event, publish_event, he]

lemma foldl_apply_event_events_other (L : List Event) :
    ∀ (st : UrlShortenerService × ShortLink) (k : String), (∀ e ∈ L, e.slug.val ≠ k) →
      (L.foldl apply_event st).1.events k = st.1.events k := by
  induction L with
  | nil => intro st k _; rfl
  | cons e t ih =>
      intro st k h
      have he : e.slug.val ≠ k := h e (List.mem_cons_self e t)
      have ht : ∀ x ∈ t, x.slug.val ≠ k := fun x hx => h x (List.mem_cons_of_mem e hx)
      have hk : ¬ k = e.slug.val := fun hk => he hk.symm
      rw [List.foldl_cons, ih _ k ht]
      simp [apply_event, publish_event, hk]

lemma foldl_apply_event_stats_same (L : List Event) :
    ∀ (st : UrlShortenerService × ShortLink) (c : String), (∀ e ∈ L, e.slug.val = c) →
      (L.foldl apply_event st).1.stats c = L.foldl applyToStats (st.1.stats c) := by
  induction L with
  | nil => intro st c _; rfl
  | cons e t ih =>
      intro st c h
      have he : e.slug.val = c := h e (List.mem_cons_self e t)
      have ht : ∀ x ∈ t, x.slug.val = c := fun x hx => h x (List.mem_cons_of_mem e hx)
      rw [List.foldl_cons, ih _ c ht, List.foldl_cons]
      simp [apply_event, publish_event, he]

lemma foldl_apply_event_stats_other (L : List Event) :
    ∀ (st : UrlShortenerService × ShortLink) (k : String), (∀ e ∈ L, e.slug.val ≠ k) →
      (L.foldl apply_event st).1.stats k = st.1.stats k := by
  induction L with
  | nil => intro st k _; rfl
  | cons e t ih =>
      intro st k h
      have he : e.slug.val ≠ k := h e (List.mem_cons_self e t)
      have ht : ∀ x ∈ t, x.slug.val ≠ k := fun x hx => h x (List.mem_cons_of_mem e hx)
      have hk : ¬ k = e.slug.val := fun hk => he hk.symm
      rw [List.foldl_cons, ih _ k ht]
      simp [apply_event, publish_event, hk]

lemma foldl_apply_event_snd (L : List Event) :
    ∀ st : UrlShortenerService × ShortLink,
      (L.foldl apply_event st).2 = L.foldl applyLocal st.2 := by
  induction L with
  | nil => intro st; rfl
  | cons e t ih =>
      intro st
      rw [List.foldl_cons, ih, List.foldl_cons]
      rfl

/-! ### The service invariant -/

/-- Well-formedness of the log stored under key `k`: every event carries
`k` as its slug, every creation event carries a url that passed
validation, and a nonempty log starts with a creation event. -/
def goodLog (k : String) (es : List Event) : Prop :=
  (∀ e ∈ es, e.slug.val = k) ∧
  (∀ e ∈ es, ∀ u, e.event_type = EventType.ShortLinkCreated u → is_valid_url u = true) ∧
  (∀ e, es.head? = some e → ∃ u, e.event_type = EventType.ShortLinkCreated u)

/-- Global state invariant: each stored log is well formed, and the
projection entry of each key is exactly the fold of that key's log. -/
def ServiceInv (s : UrlShortenerService) : Prop :=
  ∀ k, goodLog k (s.events k) ∧ s.stats k = statsOf (s.events k)

lemma inv_new : ServiceInv UrlShortenerService.new := by
  intro k
  refine ⟨⟨?_, ?_, ?_⟩, rfl⟩ <;> simp [UrlShortenerService.new]

lemma valid_url_ne_empty (u : Url) (h : is_valid_url u = true) : u.val ≠ "" := by
  intro he
  rcases u with ⟨v⟩
  simp only at he
  subst he
  exact absurd h (by decide)

/-! ### Rehydration: exact effect on the state and the aggregate -/

lemma rehydrate_unfold (s : UrlShortenerService) (sl : Slug) :
    rehydrate_by_slug (s, emptyShortLink) sl =
      (s.events sl.val).foldl apply_event
        (s, { slug := sl, url := { val := "" } }) := rfl

lemma lastCreatedPair_cons_created (e : Event) (t : List Event) (u : Url)
    (he : e.event_type = EventType.ShortLinkCreated u) :
    ∃ p, lastCreatedPair (e :: t) = some p := by
  rw [lastCreatedPair, List.foldl_cons]
  simp only [lastCreatedStep, he]
  rw [foldl_lastCreatedStep_general]
  rcases hq : t.foldl lastCreatedStep none with _ | q
  · exact ⟨(e.slug, u), by simp⟩
  · exact ⟨q, by simp⟩

lemma rehydrate_events_same (s : UrlShortenerService) (sl : Slug) (hInv : ServiceInv s) :
    (rehydrate_by_slug (s, emptyShortLink) sl).1.events sl.val =
      s.events sl.val ++ s.events sl.val := by
  rw [rehydrate_unfold]
  exact foldl_apply_event_events_same _ _ _ (hInv sl.val).1.1

lemma rehydrate_events_other (s : UrlShortenerService) (sl : Slug) (k : String)
    (hInv : ServiceInv s) (hk : k ≠ sl.val) :
    (rehydrate_by_slug (s, emptyShortLink) sl).1.events k = s.events k := by
  rw [rehydrate_unfold]
  refine foldl_apply_event_events_other _ _ _ (fun e he => ?_)
  rw [(hInv sl.val).1.1 e he]
  exact fun h => hk h.symm

lemma rehydrate_stats (s : UrlShortenerService) (sl : Slug) (hInv : ServiceInv s)
    (k : String) :
    (rehydrate_by_slug (s, emptyShortLink) sl).1.stats k = s.stats k := by
  rw [rehydrate_unfold]
  by_cases hk : k = sl.val
  · subst hk
    rw [foldl_apply_event_stats_same _ _ _ (hInv sl.val).1.1]
    rw [(hInv sl.val).2]
    exact foldl_applyToStats_irrel _ _ (hInv sl.val).1.2.2 (fun h => by rw [h]; rfl)
  · refine foldl_apply_event_stats_other _ _ _ (fun e he => ?_)
    rw [(hInv sl.val).1.1 e he]
    exact fun h => hk h.symm

lemma rehydrate_snd (s : UrlShortenerService) (sl : Slug) :
    (rehydrate_by_slug (s, emptyShortLink) sl).2 =
      match lastCreatedPair (s.events sl.val) with
      | some p => { slug := p.1, url := p.2 }
      | none => { slug := sl, url := { val := "" } } := by
  rw [rehydrate_unfold, foldl_apply_event_snd, foldl_applyLocal_char]

lemma rehydrate_slug (s : UrlShortenerService) (sl : Slug) (hInv : ServiceInv s) :
    (rehydrate_by_slug (s, emptyShortLink) sl).2.slug = sl := by
  rw [rehydrate_snd]
  rcases hp : lastCreatedPair (s.events sl.val) with _ | p
  · rfl
  · obtain ⟨e, he, h1, _⟩ := lastCreatedPair_mem _ p hp
    have : p.1.val = sl.val := by rw [← h1]; exact (hInv sl.val).1.1 e he
    rcases p with ⟨⟨v⟩, u⟩
    rcases sl with ⟨w⟩
    simp at this ⊢
    exact this

lemma rehydrate_url_empty_iff (s : UrlShortenerService) (sl : Slug) (hInv : ServiceInv s) :
    ((rehydrate_by_slug (s, emptyShortLink) sl).2.url.val = "" ↔ s.events sl.val = []) := by
  rw [rehydrate_snd]
  rcases hp : lastCreatedPair (s.events sl.val) with _ | p
  · simp only
    constructor
    · intro _
      rcases hes : s.events sl.val with _ | ⟨e, t⟩
      · rfl
      · exfalso
        obtain ⟨u, hu⟩ := (hInv sl.val).1.2.2 e (by rw [hes]; rfl)
        obtain ⟨q, hq⟩ := lastCreatedPair_cons_created e t u hu
        rw [hes, hq] at hp
        exact Option.noConfusion hp
    · intro _; trivial
  · simp only
    obtain ⟨e, he, _, h2⟩ := lastCreatedPair_mem _ p hp
    have hval : is_valid_url p.2 = true := (hInv sl.val).1.2.1 e he p.2 h2
    constructor
    · intro h
      exact absurd h (valid_url_ne_empty p.2 hval)
    · intro h
      rw [h] at hp
      exact Option.noConfusion (hp.symm.trans (by rfl : lastCreatedPair [] = none).symm)


/-! ### Pointwise effect of a single publish -/

lemma publish_event_events_eq (s : UrlShortenerService) (e : Event) (k : String)
    (hk : k = e.slug.val) : (publish_event s e).events k = s.events k ++ [e] := by
  simp [publish_event, hk]

lemma publish_event_events_ne (s : UrlShortenerService) (e : Event) (k : String)
    (hk : k ≠ e.slug.val) : (publish_event s e).events k = s.events k := by
  simp [publish_event, hk]

lemma publish_event_stats_eq (s : UrlShortenerService) (e : Event) (k : String)
    (hk : k = e.slug.val) : (publish_event s e).stats k = applyToStats (s.stats k) e := by
  simp [publish_event, hk]

lemma publish_event_stats_ne (s : UrlShortenerService) (e : Event) (k : String)
    (hk : k ≠ e.slug.val) : (publish_event s e).stats k = s.stats k := by
  simp [publish_event, hk]

/-! ### Invariant preservation -/

lemma inv_rehydrate (s : UrlShortenerService) (sl : Slug) (hInv : ServiceInv s) :
    ServiceInv (rehydrate_by_slug (s, emptyShortLink) sl).1 := by
  intro k
  by_cases hk : k = sl.val
  · subst hk
    rw [rehydrate_events_same s sl hInv, rehydrate_stats s sl hInv]
    refine ⟨⟨?_, ?_, ?_⟩, ?_⟩
    · intro e he
      rcases List.mem_append.mp he with h | h <;> exact (hInv sl.val).1.1 e h
    · intro e he u hu
      rcases List.mem_append.mp he with h | h <;> exact (hInv sl.val).1.2.1 e h u hu
    · intro e he
      rcases hes : s.events sl.val with _ | ⟨e0, t⟩
      · rw [hes] at he; exact Option.noConfusion he
      · rw [hes, List.cons_append] at he
        have he0 : e = e0 := by simpa using he.symm
        subst he0
        exact (hInv sl.val).1.2.2 e (by rw [hes]; rfl)
    · rw [(hInv sl.val).2, statsOf_doubling _ (hInv sl.val).1.2.2]
  · rw [rehydrate_events_other s sl k hInv hk, rehydrate_stats s sl hInv]
    exact hInv k

lemma inv_publish_create (s : UrlShortenerService) (hInv : ServiceInv s) (sl : Slug)
    (u : Url) (hv : is_valid_url u = true) :
    ServiceInv (publish_event s { slug := sl, event_type := EventType.ShortLinkCreated u }) := by
  intro k
  by_cases hk : k = sl.val
  · subst hk
    rw [publish_event_events_eq _ _ _ rfl, publish_event_stats_eq _ _ _ rfl]
    refine ⟨⟨?_, ?_, ?_⟩, ?_⟩
    · intro e he
      rcases List.mem_append.mp he with h | h
      · exact (hInv sl.val).1.1 e h
      · rw [List.mem_singleton] at h
        subst h
        rfl
    · intro e he u' hu'
      rcases List.mem_append.mp he with h | h
      · exact (hInv sl.val).1.2.1 e h u' hu'
      · rw [List.mem_singleton] at h
        subst h
        have : u = u' := by
          have := hu'
          simp at this
          exact this
        rw [← this]
        exact hv
    · intro e he
      rcases hes : s.events sl.val with _ | ⟨e0, t⟩
      · rw [hes] at he
        simp at he
        subst he
        exact ⟨u, rfl⟩
      · rw [hes, List.cons_append] at he
        have he0 : e = e0 := by simpa using he.symm
        subst he0
        exact (hInv sl.val).1.2.2 e (by rw [hes]; rfl)
    · rw [(hInv sl.val).2, statsOf_append]
  · rw [publish_event_events_ne _ _ _ hk, publish_event_stats_ne _ _ _ hk]
    exact hInv k

lemma inv_publish_redirect (s : UrlShortenerService) (hInv : ServiceInv s) (sl : Slug)
    (hne : s.events sl.val ≠ []) :
    ServiceInv (publish_event s { slug := sl, event_type := EventType.ShortLinkRedirected }) := by
  intro k
  by_cases hk : k = sl.val
  · subst hk
    rw [publish_event_events_eq _ _ _ rfl, publish_event_stats_eq _ _ _ rfl]
    refine ⟨⟨?_, ?_, ?_⟩, ?_⟩
    · intro e he
      rcases List.mem_append.mp he with h | h
      · exact (hInv sl.val).1.1 e h
      · rw [List.mem_singleton] at h
        subst h
        rfl
    · intro e he u' hu'
      rcases List.mem_append.mp he with h | h
      · exact (hInv sl.val).1.2.1 e h u' hu'
      · rw [List.mem_singleton] at h
        subst h
        exact EventType.noConfusion hu'
    · intro e he
      rcases hes : s.events sl.val with _ | ⟨e0, t⟩
      · exact absurd hes hne
      · rw [hes, List.cons_append] at he
        have he0 : e = e0 := by simpa using he.symm
        subst he0
        exact (hInv sl.val).1.2.2 e (by rw [hes]; rfl)
    · rw [(hInv sl.val).2, statsOf_append]
  · rw [publish_event_events_ne _ _ _ hk, publish_event_stats_ne _ _ _ hk]
    exact hInv k

/-! ### Branch lemmas for the transitions -/

lemma create_short_link_inUse (st : UrlShortenerService × ShortLink) (u : Url)
    (h : st.2.url.val ≠ "") :
    create_short_link st u = (Except.error ShortenerError.SlugAlreadyInUse, st.1) := by
  simp [create_short_link, h]

lemma create_short_link_invalid (st : UrlShortenerService × ShortLink) (u : Url)
    (h1 : st.2.url.val = "") (h2 : is_valid_url u = false) :
    create_short_link st u = (Except.error ShortenerError.InvalidUrl, st.1) := by
  simp [create_short_link, h1, h2]

lemma create_short_link_ok (st : UrlShortenerService × ShortLink) (u : Url)
    (h1 : st.2.url.val = "") (h2 : is_valid_url u = true) :
    create_short_link st u =
      (Except.ok { slug := st.2.slug, url := u },
        publish_event st.1 { slug := st.2.slug, event_type := EventType.ShortLinkCreated u }) := by
  simp [create_short_link, h1, h2, apply_event, applyLocal]

lemma redirect_notFound (st : UrlShortenerService × ShortLink) (h : st.2.url.val = "") :
    redirect st = (Except.error ShortenerError.SlugNotFound, st.1) := by
  simp [redirect, h]

lemma redirect_ok (st : UrlShortenerService × ShortLink) (h : st.2.url.val ≠ "") :
    redirect st =
      (Except.ok st.2,
        publish_event st.1 { slug := st.2.slug, event_type := EventType.ShortLinkRedirected }) := by
  simp [redirect, h, apply_event, applyLocal]

lemma inv_step (s s' : UrlShortenerService) (hInv : ServiceInv s) (h : Step s s') :
    ServiceInv s' := by
  cases h with
  | create url oslug gen =>
      cases oslug with
      | some sl =>
          show ServiceInv (create_short_link (rehydrate_by_slug (s, emptyShortLink) sl) url).2
          have hR : ServiceInv (rehydrate_by_slug (s, emptyShortLink) sl).1 :=
            inv_rehydrate s sl hInv
          by_cases h1 : (rehydrate_by_slug (s, emptyShortLink) sl).2.url.val = ""
          · by_cases h2 : is_valid_url url = true
            · rw [create_short_link_ok _ _ h1 h2]
              exact inv_publish_create _ hR _ url h2
            · rw [create_short_link_invalid _ _ h1 (by simpa using h2)]
              exact hR
          · rw [create_short_link_inUse _ _ h1]
            exact hR
      | none =>
          show ServiceInv (create_short_link (s, { emptyShortLink with slug := gen }) url).2
          by_cases h2 : is_valid_url url = true
          · rw [create_short_link_ok _ _ rfl h2]
            exact inv_publish_create _ hInv _ url h2
          · rw [create_short_link_invalid _ _ rfl (by simpa using h2)]
            exact hInv
  | redirectCall sl =>
      show ServiceInv (redirect (rehydrate_by_slug (s, emptyShortLink) sl)).2
      have hR : ServiceInv (rehydrate_by_slug (s, emptyShortLink) sl).1 :=
        inv_rehydrate s sl hInv
      by_cases h1 : (rehydrate_by_slug (s, emptyShortLink) sl).2.url.val = ""
      · rw [redirect_notFound _ h1]
        exact hR
      · rw [redirect_ok _ h1]
        have hne : s.events sl.val ≠ [] := by
          intro hnil
          exact h1 ((rehydrate_url_empty_iff s sl hInv).mpr hnil)
        have hslug : (rehydrate_by_slug (s, emptyShortLink) sl).2.slug = sl :=
          rehydrate_slug s sl hInv
        rw [hslug]
        refine inv_publish_redirect _ hR sl ?_
        rw [rehydrate_events_same s sl hInv]
        simp [hne]
  | query slug => exact hInv

lemma inv_reachable (s : UrlShortenerService) (h : Reachable s) : ServiceInv s := by
  induction h with
  | init => exact inv_new
  | step _ hs ih => exact inv_step _ _ ih hs

/-! ### Step-level utilities -/

lemma stepF_toStep {s s' : UrlShortenerService} (h : StepF s s') : Step s s' := by
  cases h with
  | createSome url slug gen => exact Step.create s url (some slug) gen
  | createNone url gen _ => exact Step.create s url none gen
  | redirectCall slug => exact Step.redirectCall s slug
  | query slug => exact Step.query s slug

lemma reachableF_toReachable {s : UrlShortenerService} (h : ReachableF s) : Reachable s := by
  induction h with
  | init => exact Reachable.init
  | step _ hs ih => exact Reachable.step ih (stepF_toStep hs)

lemma hasCreatedB_ne_nil (es : List Event) (h : hasCreatedB es = true) : es ≠ [] := by
  intro hn
  rw [hn] at h
  exact Bool.noConfusion h

lemma no_created_nil (s : UrlShortenerService) (k : String) (hInv : ServiceInv s)
    (h : hasCreatedB (s.events k) = false) : s.events k = [] := by
  rcases hes : s.events k with _ | ⟨e, t⟩
  · rfl
  · exfalso
    obtain ⟨u, hu⟩ := (hInv k).1.2.2 e (by rw [hes]; rfl)
    rw [hes] at h
    simp [hasCreatedB, isCreatedB, hu] at h

lemma created_errs (s : UrlShortenerService) (sl : Slug) (u : Url) (g : Slug)
    (hInv : ServiceInv s) (hC : hasCreatedB (s.events sl.val) = true) :
    (handle_create_short_link s u (some sl) g).1 =
      Except.error ShortenerError.SlugAlreadyInUse := by
  show (create_short_link (rehydrate_by_slug (s, emptyShortLink) sl) u).1 = _
  have hne : s.events sl.val ≠ [] := hasCreatedB_ne_nil _ hC
  have h1 : (rehydrate_by_slug (s, emptyShortLink) sl).2.url.val ≠ "" := by
    intro hurl
    exact hne ((rehydrate_url_empty_iff s sl hInv).mp hurl)
  rw [create_short_link_inUse _ _ h1]

lemma events_extend_trans {a b c : List Event}
    (h1 : ∃ t, b = a ++ t) (h2 : ∃ t, c = b ++ t) : ∃ t, c = a ++ t := by
  obtain ⟨t1, rfl⟩ := h1
  obtain ⟨t2, rfl⟩ := h2
  exact ⟨t1 ++ t2, List.append_assoc a t1 t2⟩

lemma publish_events_extend (s : UrlShortenerService) (e : Event) (k : String) :
    ∃ t, (publish_event s e).events k = s.events k ++ t := by
  by_cases hk : k = e.slug.val
  · exact ⟨[e], publish_event_events_eq _ _ _ hk⟩
  · exact ⟨[], by rw [publish_event_events_ne _ _ _ hk]; simp⟩

lemma rehydrate_events_extend (s : UrlShortenerService) (sl : Slug) (k : String)
    (hInv : ServiceInv s) :
    ∃ t, (rehydrate_by_slug (s, emptyShortLink) sl).1.events k = s.events k ++ t := by
  by_cases hk : k = sl.val
  · subst hk
    exact ⟨s.events sl.val, rehydrate_events_same s sl hInv⟩
  · exact ⟨[], by rw [rehydrate_events_other s sl k hInv hk]; simp⟩

lemma step_events_extend (s s' : UrlShortenerService) (hInv : ServiceInv s)
    (h : Step s s') (k : String) : ∃ t, s'.events k = s.events k ++ t := by
  cases h with
  | create url oslug gen =>
      cases oslug with
      | some sl =>
          show ∃ t,
            (create_short_link (rehydrate_by_slug (s, emptyShortLink) sl) url).2.events k =
              s.events k ++ t
          by_cases h1 : (rehydrate_by_slug (s, emptyShortLink) sl).2.url.val = ""
          · by_cases h2 : is_valid_url url = true
            · rw [create_short_link_ok _ _ h1 h2]
              exact events_extend_trans (rehydrate_events_extend s sl k hInv)
                (publish_events_extend _ _ k)
            · rw [create_short_link_invalid _ _ h1 (by simpa using h2)]
              exact rehydrate_events_extend s sl k hInv
          · rw [create_short_link_inUse _ _ h1]
            exact rehydrate_events_extend s sl k hInv
      | none =>
          show ∃ t,
            (create_short_link (s, { emptyShortLink with slug := gen }) url).2.events k =
              s.events k ++ t
          by_cases h2 : is_valid_url url = true
          · rw [create_short_link_ok _ _ rfl h2]
            exact publish_events_extend _ _ k
          · rw [create_short_link_invalid _ _ rfl (by simpa using h2)]
            exact ⟨[], by simp⟩
  | redirectCall sl =>
      show ∃ t, (redirect (rehydrate_by_slug (s, emptyShortLink) sl)).2.events k =
        s.events k ++ t
      by_cases h1 : (rehydrate_by_slug (s, emptyShortLink) sl).2.url.val = ""
      · rw [redirect_notFound _ h1]
        exact rehydrate_events_extend s sl k hInv
      · rw [redirect_ok _ h1]
        exact events_extend_trans (rehydrate_events_extend s sl k hInv)
          (publish_events_extend _ _ k)
  | query slug => exact ⟨[], by simp [get_stats_call]⟩

lemma hasCreatedB_append (a b : List Event) :
    hasCreatedB (a ++ b) = (hasCreatedB a || hasCreatedB b) := by
  simp [hasCreatedB, List.any_append]

lemma step_hasCreated_mono (s s' : UrlShortenerService) (hInv : ServiceInv s)
    (h : Step s s') (k : String) (hC : hasCreatedB (s.events k) = true) :
    hasCreatedB (s'.events k) = true := by
  obtain ⟨t, ht⟩ := step_events_extend s s' hInv h k
  rw [ht, hasCreatedB_append, hC]
  rfl

lemma reachable_rtg {s s' : UrlShortenerService} (h : Reachable s)
    (hr : Relation.ReflTransGen Step s s') : Reachable s' := by
  induction hr with
  | refl => exact h
  | tail _ hs ih => exact Reachable.step ih hs

lemma hasCreated_rtg {s s' : UrlShortenerService} (h : Reachable s)
    (hr : Relation.ReflTransGen Step s s') (k : String)
    (hC : hasCreatedB (s.events k) = true) : hasCreatedB (s'.events k) = true := by
  induction hr with
  | refl => exact hC
  | tail hr' hs ih =>
      exact step_hasCreated_mono _ _ (inv_reachable _ (reachable_rtg h hr')) hs k ih

/-! ### Derived facts used by the claims -/

lemma stats_none_iff (s : UrlShortenerService) (k : String) (hInv : ServiceInv s) :
    s.stats k = none ↔ hasCreatedB (s.events k) = false := by
  rw [(hInv k).2, statsOf_char, Option.map_eq_none']
  exact (hasCreatedB_false_iff _).symm

lemma statsOf_some_of_created (s : UrlShortenerService) (k : String)
    (hInv : ServiceInv s) (hne : s.events k ≠ []) : ∃ st, s.stats k = some st := by
  rcases hes : s.events k with _ | ⟨e, t⟩
  · exact absurd hes hne
  · obtain ⟨u, hu⟩ := (hInv k).1.2.2 e (by rw [hes]; rfl)
    obtain ⟨p, hp⟩ := lastCreatedPair_cons_created e t u hu
    rw [(hInv k).2, hes, statsOf_char, hp]
    exact ⟨_, rfl⟩

lemma redirectsAt_congr (s s' : UrlShortenerService) (k : String)
    (h : s'.stats k = s.stats k) : redirectsAt s' k = redirectsAt s k := by
  simp [redirectsAt, h]

lemma foldl_applyLocal_idem (es : List Event) (l : ShortLink) :
    es.foldl applyLocal (es.foldl applyLocal l) = es.foldl applyLocal l := by
  rw [foldl_applyLocal_char, foldl_applyLocal_char]
  rcases hp : lastCreatedPair es with _ | p <;> simp [hp, foldl_applyLocal_char]

lemma redirect_noCreation (s : UrlShortenerService) (sl : Slug) (hInv : ServiceInv s)
    (hn : s.events sl.val = []) :
    (handle_redirect s sl).1 = Except.error ShortenerError.SlugNotFound := by
  show (redirect (rehydrate_by_slug (s, emptyShortLink) sl)).1 = _
  rw [redirect_notFound _ ((rehydrate_url_empty_iff s sl hInv).mpr hn)]

lemma create_some_ok_hasCreated (s : UrlShortenerService) (sl : Slug) (u : Url)
    (g : Slug) (link : ShortLink) (hInv : ServiceInv s)
    (hok : (handle_create_short_link s u (some sl) g).1 = Except.ok link) :
    hasCreatedB ((handle_create_short_link s u (some sl) g).2.events sl.val) = true := by
  have hunfold : handle_create_short_link s u (some sl) g =
      create_short_link (rehydrate_by_slug (s, emptyShortLink) sl) u := rfl
  rw [hunfold] at hok ⊢
  by_cases h1 : (rehydrate_by_slug (s, emptyShortLink) sl).2.url.val = ""
  · by_cases h2 : is_valid_url u = true
    · rw [create_short_link_ok _ _ h1 h2]
      have hk : sl.val =
          (⟨(rehydrate_by_slug (s, emptyShortLink) sl).2.slug,
            EventType.ShortLinkCreated u⟩ : Event).slug.val := by
        rw [rehydrate_slug s sl hInv]
      rw [publish_event_events_eq _ _ _ hk, hasCreatedB_append]
      simp [hasCreatedB, isCreatedB]
    · rw [create_short_link_invalid _ _ h1 (by simpa using h2)] at hok
      exact Except.noConfusion hok
  · rw [create_short_link_inUse _ _ h1] at hok
    exact Except.noConfusion hok

/-- Per-log uniqueness: every creation event in a log equals its first
event (so a log holds at most one distinct creation event). -/
def uniqLog (es : List Event) : Prop :=
  ∀ e ∈ es, isCreatedB e = true → es.head? = some e

lemma uniqLog_nil : uniqLog [] := fun e he _ => absurd he (List.not_mem_nil e)

lemma uniqLog_single (e : Event) : uniqLog [e] := by
  intro x hx _
  rw [List.mem_singleton] at hx
  rw [hx]
  rfl

lemma head_append_of_ne_nil (a b : List Event) (h : a ≠ []) :
    (a ++ b).head? = a.head? := by
  cases a with
  | nil => exact absurd rfl h
  | cons x t => rfl

lemma uniqLog_double (es : List Event) (h : uniqLog es) : uniqLog (es ++ es) := by
  intro e he hc
  have hes : e ∈ es := by
    rcases List.mem_append.mp he with h' | h' <;> exact h'
  rw [head_append_of_ne_nil es es (List.ne_nil_of_mem hes)]
  exact h e hes hc

lemma uniqLog_append_redirect (es : List Event) (e : Event) (h : uniqLog es)
    (he : isCreatedB e = false) : uniqLog (es ++ [e]) := by
  intro x hx hc
  rcases List.mem_append.mp hx with h' | h'
  · rw [head_append_of_ne_nil es [e] (List.ne_nil_of_mem h')]
    exact h x h' hc
  · rw [List.mem_singleton] at h'
    subst h'
    rw [he] at hc
    exact Bool.noConfusion hc

/-- Global uniqueness of creation events, per key. -/
def uniqCreated (s : UrlShortenerService) : Prop := ∀ k, uniqLog (s.events k)

lemma uniq_new : uniqCreated UrlShortenerService.new := fun _ => uniqLog_nil

lemma uniq_rehydrate (s : UrlShortenerService) (sl : Slug) (hInv : ServiceInv s)
    (hU : uniqCreated s) : uniqCreated (rehydrate_by_slug (s, emptyShortLink) sl).1 := by
  intro k
  by_cases hk : k = sl.val
  · subst hk
    rw [rehydrate_events_same s sl hInv]
    exact uniqLog_double _ (hU sl.val)
  · rw [rehydrate_events_other s sl k hInv hk]
    exact hU k

lemma uniq_stepF (s s' : UrlShortenerService) (hInv : ServiceInv s) (hU : uniqCreated s)
    (h : StepF s s') : uniqCreated s' := by
  cases h with
  | createSome url sl gen =>
      show uniqCreated (create_short_link (rehydrate_by_slug (s, emptyShortLink) sl) url).2
      have hUR : uniqCreated (rehydrate_by_slug (s, emptyShortLink) sl).1 :=
        uniq_rehydrate s sl hInv hU
      by_cases h1 : (rehydrate_by_slug (s, emptyShortLink) sl).2.url.val = ""
      · by_cases h2 : is_valid_url url = true
        · rw [create_short_link_ok _ _ h1 h2]
          intro k
          by_cases hk : k = sl.val
          · subst hk
            have hkk : sl.val =
                (⟨(rehydrate_by_slug (s, emptyShortLink) sl).2.slug,
                  EventType.ShortLinkCreated url⟩ : Event).slug.val := by
              rw [rehydrate_slug s sl hInv]
            rw [publish_event_events_eq _ _ _ hkk, rehydrate_events_same s sl hInv,
              (rehydrate_url_empty_iff s sl hInv).mp h1]
            exact uniqLog_single _
          · have hkk : k ≠
                (⟨(rehydrate_by_slug (s, emptyShortLink) sl).2.slug,
                  EventType.ShortLinkCreated url⟩ : Event).slug.val := by
              rw [rehydrate_slug s sl hInv]
              exact hk
            rw [publish_event_events_ne _ _ _ hkk]
            exact hUR k
        · rw [create_short_link_invalid _ _ h1 (by simpa using h2)]
          exact hUR
      · rw [create_short_link_inUse _ _ h1]
        exact hUR
  | createNone url gen fresh =>
      show uniqCreated (create_short_link (s, { emptyShortLink with slug := gen }) url).2
      by_cases h2 : is_valid_url url = true
      · rw [create_short_link_ok _ _ rfl h2]
        intro k
        by_cases hk : k = gen.val
        · subst hk
          rw [publish_event_events_eq _ _ _ rfl, fresh]
          exact uniqLog_single _
        · rw [publish_event_events_ne _ _ _ hk]
          exact hU k
      · rw [create_short_link_invalid _ _ rfl (by simpa using h2)]
        exact hU
  | redirectCall sl =>
      show uniqCreated (redirect (rehydrate_by_slug (s, emptyShortLink) sl)).2
      have hUR : uniqCreated (rehydrate_by_slug (s, emptyShortLink) sl).1 :=
        uniq_rehydrate s sl hInv hU
      by_cases h1 : (rehydrate_by_slug (s, emptyShortLink) sl).2.url.val = ""
      · rw [redirect_notFound _ h1]
        exact hUR
      · rw [redirect_ok _ h1]
        intro k
        by_cases hk : k = sl.val
        · subst hk
          have hkk : sl.val =
              (⟨(rehydrate_by_slug (s, emptyShortLink) sl).2.slug,
                EventType.ShortLinkRedirected⟩ : Event).slug.val := by
            rw [rehydrate_slug s sl hInv]
          rw [publish_event_events_eq _ _ _ hkk, rehydrate_events_same s sl hInv]
          exact uniqLog_append_redirect _ _ (uniqLog_double _ (hU sl.val)) rfl
        · have hkk : k ≠
              (⟨(rehydrate_by_slug (s, emptyShortLink) sl).2.slug,
                EventType.ShortLinkRedirected⟩ : Event).slug.val := by
            rw [rehydrate_slug s sl hInv]
            exact hk
          rw [publish_event_events_ne _ _ _ hkk]
          exact hUR k
  | query slug => exact hU

lemma uniq_reachableF (s : UrlShortenerService) (h : ReachableF s) : uniqCreated s := by
  induction h with
  | init => exact uniq_new
  | step hprev hs ih =>
      exact uniq_stepF _ _ (inv_reachable _ (reachableF_toReachable hprev)) ih hs

lemma handle_redirect_ok_plus_one (s : UrlShortenerService) (sl : Slug) (link : ShortLink)
    (hInv : ServiceInv s) (hok : (handle_redirect s sl).1 = Except.ok link) :
    redirectsAt (handle_redirect s sl).2 sl.val = redirectsAt s sl.val + 1 := by
  have hunfold : handle_redirect s sl =
      redirect (rehydrate_by_slug (s, emptyShortLink) sl) := rfl
  rw [hunfold] at hok ⊢
  by_cases h1 : (rehydrate_by_slug (s, emptyShortLink) sl).2.url.val = ""
  · rw [redirect_notFound _ h1] at hok
    exact Except.noConfusion hok
  · rw [redirect_ok _ h1]
    have hne : s.events sl.val ≠ [] := by
      intro hnil
      exact h1 ((rehydrate_url_empty_iff s sl hInv).mpr hnil)
    obtain ⟨st0, hst0⟩ := statsOf_some_of_created s sl.val hInv hne
    have hkk : sl.val =
        (⟨(rehydrate_by_slug (s, emptyShortLink) sl).2.slug,
          EventType.ShortLinkRedirected⟩ : Event).slug.val := by
      rw [rehydrate_slug s sl hInv]
    show redirectsAt
      (publish_event (rehydrate_by_slug (s, emptyShortLink) sl).1 _) sl.val = _
    rw [redirectsAt, publish_event_stats_eq _ _ _ hkk,
      rehydrate_stats s sl hInv sl.val, hst0]
    simp [applyToStats, redirectsAt, hst0]

lemma redirectsAt_zero_of_nil (s : UrlShortenerService) (k : String)
    (hInv : ServiceInv s) (hn : s.events k = []) : redirectsAt s k = 0 := by
  have : s.stats k = none := by rw [(hInv k).2, hn]; rfl
  simp [redirectsAt, this]

lemma redirectsAt_publish_redirect_ge (s' : UrlShortenerService) (sl0 : Slug)
    (k : String) :
    redirectsAt s' k ≤
      redirectsAt (publish_event s' ⟨sl0, EventType.ShortLinkRedirected⟩) k := by
  by_cases hk : k = sl0.val
  · rw [redirectsAt, redirectsAt, publish_event_stats_eq _ _ _ hk]
    rcases hst : s'.stats k with _ | st0 <;> simp [applyToStats, hst]
  · rw [redirectsAt_congr _ _ k (publish_event_stats_ne _ _ _ hk)]

lemma stepF_redirectsAt_mono (s s' : UrlShortenerService) (hInv : ServiceInv s)
    (h : StepF s s') (k : String) : redirectsAt s k ≤ redirectsAt s' k := by
  cases h with
  | createSome url sl gen =>
      show redirectsAt s k ≤
        redirectsAt (create_short_link (rehydrate_by_slug (s, emptyShortLink) sl) url).2 k
      by_cases h1 : (rehydrate_by_slug (s, emptyShortLink) sl).2.url.val = ""
      · by_cases h2 : is_valid_url url = true
        · rw [create_short_link_ok _ _ h1 h2]
          by_cases hk : k = sl.val
          · subst hk
            rw [redirectsAt_zero_of_nil s sl.val hInv
              ((rehydrate_url_empty_iff s sl hInv).mp h1)]
            exact Nat.zero_le _
          · have hkk : k ≠
                (⟨(rehydrate_by_slug (s, emptyShortLink) sl).2.slug,
                  EventType.ShortLinkCreated url⟩ : Event).slug.val := by
              rw [rehydrate_slug s sl hInv]
              exact hk
            rw [redirectsAt_congr _ _ k (by
              rw [publish_event_stats_ne _ _ _ hkk, rehydrate_stats s sl hInv k])]
        · rw [create_short_link_invalid _ _ h1 (by simpa using h2)]
          rw [redirectsAt_congr _ _ k (rehydrate_stats s sl hInv k)]
      · rw [create_short_link_inUse _ _ h1]
        rw [redirectsAt_congr _ _ k (rehydrate_stats s sl hInv k)]
  | createNone url gen fresh =>
      show redirectsAt s k ≤
        redirectsAt (create_short_link (s, { emptyShortLink with slug := gen }) url).2 k
      by_cases h2 : is_valid_url url = true
      · rw [create_short_link_ok _ _ rfl h2]
        by_cases hk : k = gen.val
        · subst hk
          rw [redirectsAt_zero_of_nil s gen.val hInv fresh]
          exact Nat.zero_le _
        · rw [redirectsAt_congr _ _ k (publish_event_stats_ne _ _ _ hk)]
      · rw [create_short_link_invalid _ _ rfl (by simpa using h2)]
  | redirectCall sl =>
      show redirectsAt s k ≤
        redirectsAt (redirect (rehydrate_by_slug (s, emptyShortLink) sl)).2 k
      by_cases h1 : (rehydrate_by_slug (s, emptyShortLink) sl).2.url.val = ""
      · rw [redirect_notFound _ h1]
        rw [redirectsAt_congr _ _ k (rehydrate_stats s sl hInv k)]
      · rw [redirect_ok _ h1]
        have hle := redirectsAt_publish_redirect_ge
          (rehydrate_by_slug (s, emptyShortLink) sl).1
          (rehydrate_by_slug (s, emptyShortLink) sl).2.slug k
        rw [redirectsAt_congr _ _ k (rehydrate_stats s sl hInv k)] at hle
        exact hle
  | query slug => exact Nat.le_refl _

/-! ### Reachability of the concrete executions -/

lemma reachable_st1 : Reachable st1 :=
  Reachable.step Reachable.init
    (Step.create UrlShortenerService.new urlGoogle (some slugGoog) slugDummy)

lemma reachable_st2 : Reachable st2 :=
  Reachable.step reachable_st1 (Step.redirectCall st1 slugGoog)

lemma reachable_st3 : Reachable st3 :=
  Reachable.step reachable_st2 (Step.redirectCall st2 slugGoog)

lemma reachableF_st1 : ReachableF st1 :=
  ReachableF.step ReachableF.init
    (StepF.createSome UrlShortenerService.new urlGoogle slugGoog slugDummy)

lemma reachableF_st2 : ReachableF st2 :=
  ReachableF.step reachableF_st1 (StepF.redirectCall st1 slugGoog)

/-- Alias colliding with a possible generator output (the generator
produces strings of the shape `rand<nanos>`). -/
def slugRand : Slug := { val := "rand1700000000000000000" }

def urlOther : Url := { val := "https://b.c" }

/-- Service state after the successful creation of the `rand…` alias. -/
def cr1 : UrlShortenerService :=
  (handle_create_short_link UrlShortenerService.new urlGoogle (some slugRand) slugDummy).2

/-- Service state after one successful redirect of the `rand…` alias. -/
def cr2 : UrlShortenerService := (handle_redirect cr1 slugRand).2

/-- Service state after a generated-slug creation whose generator output
collides with the existing `rand…` alias. -/
def cr3 : UrlShortenerService :=
  (handle_create_short_link cr2 urlOther none slugRand).2

lemma reachable_cr1 : Reachable cr1 :=
  Reachable.step Reachable.init
    (Step.create UrlShortenerService.new urlGoogle (some slugRand) slugDummy)

lemma reachable_cr2 : Reachable cr2 :=
  Reachable.step reachable_cr1 (Step.redirectCall cr1 slugRand)

/-! ### Claims -/

/-- Claim C5: starting fresh, creating `goog` for `https://google.com`
succeeds, two redirects of `goog` succeed, and `get_stats goog` then
returns the stored link with a redirect count of 2. -/
theorem c5_scenario4 :
    (handle_create_short_link UrlShortenerService.new urlGoogle (some slugGoog) slugDummy).1 =
      Except.ok { slug := slugGoog, url := urlGoogle } ∧
    (handle_redirect st1 slugGoog).1 = Except.ok { slug := slugGoog, url := urlGoogle } ∧
    (handle_redirect st2 slugGoog).1 = Except.ok { slug := slugGoog, url := urlGoogle } ∧
    get_stats st3 slugGoog =
      Except.ok { link := { slug := slugGoog, url := urlGoogle }, redirects := 2 } :=
  ⟨by decide, by decide, by decide, by decide⟩

/-- Claim C7: replaying one alias's event sequence into the aggregate's
local `ShortLink` state is idempotent: replaying the full sequence `k ≥ 1`
times from any starting state yields the same local state as replaying it
once. -/
theorem c7_replay_idempotent (es : List Event) (l : ShortLink) (k : Nat) (hk : 1 ≤ k) :
    (fun x => es.foldl applyLocal x)^[k] l = es.foldl applyLocal l := by
  induction k with
  | zero => exact absurd hk (by decide)
  | succ n ih =>
      rcases Nat.eq_zero_or_pos n with hn | hn
      · subst hn
        simp
      · rw [Function.iterate_succ_apply', ih hn]
        exact foldl_applyLocal_idem es l

theorem c7_witness :
    1 ≤ 2 ∧
    (fun x =>
        [({ slug := slugGoog, event_type := EventType.ShortLinkCreated urlGoogle } : Event),
          { slug := slugGoog, event_type := EventType.ShortLinkRedirected }].foldl
          applyLocal x)^[2] emptyShortLink =
      [({ slug := slugGoog, event_type := EventType.ShortLinkCreated urlGoogle } : Event),
        { slug := slugGoog, event_type := EventType.ShortLinkRedirected }].foldl
        applyLocal emptyShortLink :=
  ⟨by decide, c7_replay_idempotent _ emptyShortLink 2 (by decide)⟩

/-- Claim C9: `get_stats` takes `&self`: a call leaves both the event log
and the projection unchanged, and on success returns exactly the stored
`Stats` value. -/
theorem c9_get_stats_pure (s : UrlShortenerService) (sl : Slug) :
    (get_stats_call s sl).2.events = s.events ∧
    (get_stats_call s sl).2.stats = s.stats ∧
    (∀ st : Stats, (get_stats_call s sl).1 = Except.ok st ↔ s.stats sl.val = some st) := by
  refine ⟨rfl, rfl, ?_⟩
  intro st
  show get_stats s sl = Except.ok st ↔ _
  rcases hs : s.stats sl.val with _ | st0 <;> simp [get_stats, hs]

theorem c9_witness :
    (get_stats_call st1 slugGoog).2.events = st1.events ∧
    (get_stats_call st1 slugGoog).2.stats = st1.stats ∧
    ((get_stats_call st1 slugGoog).1 =
        Except.ok { link := { slug := slugGoog, url := urlGoogle }, redirects := 0 } ↔
      st1.stats "goog" =
        some { link := { slug := slugGoog, url := urlGoogle }, redirects := 0 }) :=
  ⟨(c9_get_stats_pure st1 slugGoog).1, (c9_get_stats_pure st1 slugGoog).2.1,
   (c9_get_stats_pure st1 slugGoog).2.2 _⟩

/-- Claim C10: a caller-supplied slug that already has a created link is
rejected with `SlugAlreadyInUse` for every target URL — including URLs
that fail validation, because the slug-in-use check runs first. -/
theorem c10_slug_in_use_precedence (s : UrlShortenerService) (hr : Reachable s)
    (sl : Slug) (u : Url) (g : Slug) (hC : hasCreatedB (s.events sl.val) = true) :
    (handle_create_short_link s u (some sl) g).1 =
      Except.error ShortenerError.SlugAlreadyInUse :=
  created_errs s sl u g (inv_reachable s hr) hC

theorem c10_witness :
    (handle_create_short_link st1 { val := "invalid-url" } (some slugGoog) slugDummy).1 =
      Except.error ShortenerError.SlugAlreadyInUse :=
  c10_slug_in_use_precedence st1 reachable_st1 slugGoog { val := "invalid-url" }
    slugDummy (by decide)

/-- Claim C8: for an alias with no creation event, `handle_redirect` and
`get_stats` both fail with `SlugNotFound`, and "no creation event in the
log" coincides with "no projection entry" in every reachable state. -/
theorem c8_unknown_alias_symmetry (s : UrlShortenerService) (hr : Reachable s) (a : Slug) :
    (hasCreatedB (s.events a.val) = false →
      (handle_redirect s a).1 = Except.error ShortenerError.SlugNotFound ∧
      get_stats s a = Except.error ShortenerError.SlugNotFound) ∧
    (hasCreatedB (s.events a.val) = false ↔ s.stats a.val = none) := by
  have hInv := inv_reachable s hr
  constructor
  · intro hC
    have hnil : s.events a.val = [] := no_created_nil s a.val hInv hC
    refine ⟨redirect_noCreation s a hInv hnil, ?_⟩
    have hnone : s.stats a.val = none := (stats_none_iff s a.val hInv).mpr hC
    simp [get_stats, hnone]
  · exact (stats_none_iff s a.val hInv).symm

theorem c8_witness :
    ((handle_redirect st1 { val := "missing" }).1 =
        Except.error ShortenerError.SlugNotFound ∧
      get_stats st1 { val := "missing" } = Except.error ShortenerError.SlugNotFound) ∧
    (hasCreatedB (st1.events "missing") = false ↔ st1.stats "missing" = none) :=
  ⟨(c8_unknown_alias_symmetry st1 reachable_st1 { val := "missing" }).1 (by decide),
   (c8_unknown_alias_symmetry st1 reachable_st1 { val := "missing" }).2⟩

/-- Claim C6: once a creation for an alias has succeeded, every later
`handle_create_short_link` call supplying the same alias fails with
`SlugAlreadyInUse`, for any target URL and after any interleaving of
further service calls. -/
theorem c6_creation_uniqueness (s : UrlShortenerService) (u0 : Url) (sl : Slug)
    (g0 : Slug) (link : ShortLink) (hr : Reachable s)
    (hok : (handle_create_short_link s u0 (some sl) g0).1 = Except.ok link)
    (s2 : UrlShortenerService)
    (hrtg : Relation.ReflTransGen Step (handle_create_short_link s u0 (some sl) g0).2 s2)
    (u : Url) (g : Slug) :
    (handle_create_short_link s2 u (some sl) g).1 =
      Except.error ShortenerError.SlugAlreadyInUse := by
  have hInv := inv_reachable s hr
  have h1 : Reachable (handle_create_short_link s u0 (some sl) g0).2 :=
    Reachable.step hr (Step.create s u0 (some sl) g0)
  have hC := create_some_ok_hasCreated s sl u0 g0 link hInv hok
  have hr2 : Reachable s2 := reachable_rtg h1 hrtg
  have hC2 : hasCreatedB (s2.events sl.val) = true := hasCreated_rtg h1 hrtg sl.val hC
  exact created_errs s2 sl u g (inv_reachable s2 hr2) hC2

theorem c6_witness :
    (handle_create_short_link st2 { val := "https://other.com" } (some slugGoog) slugDummy).1 =
      Except.error ShortenerError.SlugAlreadyInUse :=
  c6_creation_uniqueness UrlShortenerService.new urlGoogle slugGoog slugDummy
    { slug := slugGoog, url := urlGoogle } Reachable.init (by decide) st2
    (Relation.ReflTransGen.single (Step.redirectCall st1 slugGoog))
    { val := "https://other.com" } slugDummy

/-- Claim C3 (counterexample): after creating `goog` and redirecting
twice, the projection records 2 redirects while the event log stores 3
`ShortLinkRedirected` events (rehydration re-appended history), so the
stored count does not equal the number of redirect events in the log. -/
theorem c3_counterexample :
    Reachable st3 ∧
    (st3.stats "goog").map Stats.redirects = some 2 ∧
    (st3.events "goog").countP (fun e => isRedirectedB e) = 3 ∧
    ¬ (st3.stats "goog").map Stats.redirects =
        some ((st3.events "goog").countP (fun e => isRedirectedB e)) :=
  ⟨reachable_st3, by decide, by decide, by decide⟩

/-- Claim C3 (amended): in every reachable state, a projection entry's
`redirects` equals the number of `ShortLinkRedirected` events after the
last `ShortLinkCreated` event in that alias's log, and its `link.url`
equals the url carried by that last creation event. -/
theorem c3_projection_consistency (s : UrlShortenerService) (hr : Reachable s)
    (k : String) (st : Stats) (hst : s.stats k = some st) :
    st.redirects = countRedirectsAfterLastCreate (s.events k) ∧
    (lastCreatedPair (s.events k)).map Prod.snd = some st.link.url := by
  have hInv := inv_reachable s hr
  rw [(hInv k).2, statsOf_char] at hst
  rcases hp : lastCreatedPair (s.events k) with _ | p
  · rw [hp] at hst
    exact Option.noConfusion hst
  · rw [hp] at hst
    simp only [Option.map_some', Option.some.injEq] at hst
    subst hst
    exact ⟨rfl, rfl⟩

theorem c3_witness :
    ({ link := { slug := slugGoog, url := urlGoogle }, redirects := 1 } : Stats).redirects =
      countRedirectsAfterLastCreate (st2.events "goog") ∧
    (lastCreatedPair (st2.events "goog")).map Prod.snd =
      some ({ link := { slug := slugGoog, url := urlGoogle }, redirects := 1 } : Stats).link.url :=
  c3_projection_consistency st2 reachable_st2 "goog" _ (by decide)

/-- Claim C2 (counterexample): after creating `goog` and redirecting it
once, the alias's log holds two `ShortLinkCreated` events (the original
and the copy re-published during rehydration), violating "at most one". -/
theorem c2_counterexample :
    Reachable st2 ∧ ¬ ((st2.events "goog").countP (fun e => isCreatedB e) ≤ 1) :=
  ⟨reachable_st2, by decide⟩

/-- Claim C2 (amended): in every state reachable when generated slugs are
fresh, every creation event in an alias's log equals the log's first
event — the log holds at most one distinct creation event, duplicated
only by rehydration's re-publish. -/
theorem c2_at_most_one_distinct_creation (s : UrlShortenerService) (hr : ReachableF s)
    (k : String) (e : Event) (he : e ∈ s.events k) (hc : isCreatedB e = true) :
    (s.events k).head? = some e :=
  uniq_reachableF s hr k e he hc

theorem c2_witness :
    ({ slug := slugGoog, event_type := EventType.ShortLinkCreated urlGoogle } : Event) ∈
        st2.events "goog" ∧
      (st2.events "goog").head? =
        some { slug := slugGoog, event_type := EventType.ShortLinkCreated urlGoogle } :=
  ⟨by decide,
   c2_at_most_one_distinct_creation st2 reachableF_st2 "goog" _ (by decide) (by decide)⟩

/-- Claim C1 (counterexample): a duplicate creation of `goog` fails with
`SlugAlreadyInUse`, yet the alias's event log is not unchanged — the
rehydration inside the failed call re-appended the alias's history. -/
theorem c1_counterexample :
    Reachable st1 ∧
    (handle_create_short_link st1 urlGoogle (some slugGoog) slugDummy).1 =
      Except.error ShortenerError.SlugAlreadyInUse ∧
    (handle_create_short_link st1 urlGoogle (some slugGoog) slugDummy).2.events "goog" ≠
      st1.events "goog" :=
  ⟨reachable_st1, by decide, by decide⟩

/-- Claim C1 (amended): a failed `handle_create_short_link` leaves the
projection unchanged at every key and appends no new event of its own:
on `InvalidUrl` the event log is wholly unchanged, and on
`SlugAlreadyInUse` the only log change is that the supplied alias's
pre-call history is appended to itself by rehydration, all other aliases
unchanged. -/
theorem c1_failed_create_effects (s : UrlShortenerService) (u : Url) (osl : Option Slug)
    (g : Slug) (err : ShortenerError) (hr : Reachable s)
    (herr : (handle_create_short_link s u osl g).1 = Except.error err) :
    (∀ k, (handle_create_short_link s u osl g).2.stats k = s.stats k) ∧
    (err = ShortenerError.InvalidUrl →
      ∀ k, (handle_create_short_link s u osl g).2.events k = s.events k) ∧
    (err = ShortenerError.SlugAlreadyInUse →
      ∃ sl, osl = some sl ∧
        (handle_create_short_link s u osl g).2.events sl.val =
          s.events sl.val ++ s.events sl.val ∧
        ∀ k, k ≠ sl.val →
          (handle_create_short_link s u osl g).2.events k = s.events k) := by
  have hInv := inv_reachable s hr
  cases osl with
  | some sl =>
      have hunfold : handle_create_short_link s u (some sl) g =
          create_short_link (rehydrate_by_slug (s, emptyShortLink) sl) u := rfl
      rw [hunfold] at herr ⊢
      by_cases h1 : (rehydrate_by_slug (s, emptyShortLink) sl).2.url.val = ""
      · by_cases h2 : is_valid_url u = true
        · rw [create_short_link_ok _ _ h1 h2] at herr
          simp at herr
        · have hbr := create_short_link_invalid
            (rehydrate_by_slug (s, emptyShortLink) sl) u h1 (by simpa using h2)
          rw [hbr] at herr
          simp only at herr
          have herr' : ShortenerError.InvalidUrl = err := by
            exact (Except.error.inj herr)
          subst herr'
          refine ⟨?_, ?_, ?_⟩
          · intro k
            rw [hbr]
            exact rehydrate_stats s sl hInv k
          · intro _ k
            rw [hbr]
            by_cases hk : k = sl.val
            · subst hk
              have hnil : s.events sl.val = [] := (rehydrate_url_empty_iff s sl hInv).mp h1
              have hsame := rehydrate_events_same s sl hInv
              rw [hnil] at hsame
              simp only [List.append_nil] at hsame
              exact hsame.trans hnil.symm
            · exact rehydrate_events_other s sl k hInv hk
          · intro habs
            exact ShortenerError.noConfusion habs
      · have hbr := create_short_link_inUse (rehydrate_by_slug (s, emptyShortLink) sl) u h1
        rw [hbr] at herr
        simp only at herr
        have herr' : ShortenerError.SlugAlreadyInUse = err := Except.error.inj herr
        subst herr'
        refine ⟨?_, ?_, ?_⟩
        · intro k
          rw [hbr]
          exact rehydrate_stats s sl hInv k
        · intro habs
          exact ShortenerError.noConfusion habs
        · intro _
          refine ⟨sl, rfl, ?_, ?_⟩
          · rw [hbr]
            exact rehydrate_events_same s sl hInv
          · intro k hk
            rw [hbr]
            exact rehydrate_events_other s sl k hInv hk
  | none =>
      have hunfold : handle_create_short_link s u none g =
          create_short_link (s, { emptyShortLink with slug := g }) u := rfl
      rw [hunfold] at herr ⊢
      by_cases h2 : is_valid_url u = true
      · rw [create_short_link_ok _ _ rfl h2] at herr
        simp at herr
      · have hbr := create_short_link_invalid
          (s, { emptyShortLink with slug := g }) u rfl (by simpa using h2)
        rw [hbr] at herr
        simp only at herr
        have herr' : ShortenerError.InvalidUrl = err := Except.error.inj herr
        subst herr'
        refine ⟨?_, ?_, ?_⟩
        · intro k
          rw [hbr]
        · intro _ k
          rw [hbr]
        · intro habs
          exact ShortenerError.noConfusion habs

theorem c1_witness :
    (handle_create_short_link st1 urlGoogle (some slugGoog) slugDummy).2.stats "goog" =
      st1.stats "goog" ∧
    (handle_create_short_link st1 urlGoogle (some slugGoog) slugDummy).2.events "goog" =
      st1.events "goog" ++ st1.events "goog" := by
  have h := c1_failed_create_effects st1 urlGoogle (some slugGoog) slugDummy
    ShortenerError.SlugAlreadyInUse reachable_st1 (by decide)
  refine ⟨h.1 "goog", ?_⟩
  obtain ⟨sl, hsl, h1, _⟩ := h.2.2 rfl
  cases Option.some.inj hsl
  exact h1

/-- Claim C4 (counterexample): when a generated slug collides with an
existing alias the creation path skips rehydration, succeeds, and resets
the projection entry — the observed redirect count drops from 1 to 0, so
"never decreases" fails for arbitrary generator outputs. -/
theorem c4_counterexample :
    Reachable cr2 ∧
    redirectsAt cr2 slugRand.val = 1 ∧
    (handle_create_short_link cr2 urlOther none slugRand).1 =
      Except.ok { slug := slugRand, url := urlOther } ∧
    redirectsAt cr3 slugRand.val = 0 :=
  ⟨reachable_cr2, by decide, by decide, by decide⟩

/-- Claim C4 (amended): every successful `handle_redirect` increases the
alias's observed redirect count by exactly 1 (in any reachable state),
and the observed count never decreases across any call provided every
generated slug is fresh at generation time. -/
theorem c4_redirect_monotonicity :
    (∀ (s : UrlShortenerService) (sl : Slug) (link : ShortLink), Reachable s →
      (handle_redirect s sl).1 = Except.ok link →
      redirectsAt (handle_redirect s sl).2 sl.val = redirectsAt s sl.val + 1) ∧
    (∀ (s s' : UrlShortenerService) (k : String), ReachableF s → StepF s s' →
      redirectsAt s k ≤ redirectsAt s' k) :=
  ⟨fun s sl link hr hok => handle_redirect_ok_plus_one s sl link (inv_reachable s hr) hok,
   fun s s' k hr hstep =>
     stepF_redirectsAt_mono s s' (inv_reachable s (reachableF_toReachable hr)) hstep k⟩

theorem c4_witness :
    redirectsAt st2 "goog" = redirectsAt st1 "goog" + 1 ∧
    redirectsAt st1 "goog" ≤ redirectsAt st2 "goog" :=
  ⟨c4_redirect_monotonicity.1 st1 slugGoog { slug := slugGoog, url := urlGoogle }
     reachable_st1 (by decide),
   c4_redirect_monotonicity.2 st1 st2 "goog" reachableF_st1
     (StepF.redirectCall st1 slugGoog)⟩
